import Mathlib

/-!
Shallow embedding of `examples/cfbtool.rs` from the rust-cfb repository.

Strings are modelled as lists of Unicode codepoints (`List Nat`): Rust's
`str::chars` iterates Unicode scalar values, and all arithmetic in the tool
is on `char as u32` values.  Stream contents are lists of bytes (`List Nat`).
-/

/-- Source: `const TABLE_PREFIX: char = '\u{4840}';` (codepoint 0x4840). -/
def TABLE_MARKER : Nat := 0x4840

/-- `char::from_u32`: succeeds exactly on Unicode scalar values
(below the surrogate block, or between it and 0x110000). -/
def char_from_u32 (v : Nat) : Option Nat :=
  if v < 0xD800 ∨ (0xE000 ≤ v ∧ v < 0x110000) then some v else none

/-- Source `from_b64`, with the `.unwrap()` calls elided: the theorem
`decode_total_c10` shows the partial version `from_b64D` below (which keeps
the `debug_assert!` and the `char::from_u32(..).unwrap()` partiality) agrees
with this total version on every value `decode` passes in. -/
def from_b64 (value : Nat) : Nat :=
  if value < 10 then value + 0x30
  else if value < 36 then value - 10 + 0x41
  else if value < 62 then value - 36 + 0x61
  else if value = 62 then 0x2E
  else 0x5F

/-- Source `from_b64` verbatim: `debug_assert!(value < 64)` modelled as a
guard (a debug build aborts when it fails), and each
`char::from_u32(..).unwrap()` modelled as the partial `char_from_u32`. -/
def from_b64D (value : Nat) : Option Nat :=
  if 64 ≤ value then none
  else if value < 10 then char_from_u32 (value + 0x30)
  else if value < 36 then char_from_u32 (value - 10 + 0x41)
  else if value < 62 then char_from_u32 (value - 36 + 0x61)
  else if value = 62 then some 0x2E
  else some 0x5F

/-- The `for chr in chars` loop body of `decode`, with `output` as the
accumulator (`output.push` appends on the right). -/
def decodeLoop : List Nat → List Nat → List Nat
  | acc, [] => acc
  | acc, c :: rest =>
    if 0x3800 ≤ c ∧ c < 0x4800 then
      decodeLoop (acc ++ [from_b64 ((c - 0x3800) &&& 0x3f), from_b64 ((c - 0x3800) >>> 6)]) rest
    else if 0x4800 ≤ c ∧ c < 0x4840 then
      decodeLoop (acc ++ [from_b64 (c - 0x4800)]) rest
    else
      decodeLoop (acc ++ [c]) rest

/-- Source `decode`: peeks at the first character for the table marker
(consuming it and setting `is_table`), then runs the loop on the rest. -/
def decode (name : List Nat) : List Nat × Bool :=
  match name with
  | [] => ([], false)
  | c :: rest =>
    if c = TABLE_MARKER then (decodeLoop [] rest, true)
    else (decodeLoop [] (c :: rest), false)

/-- The loop of `decode` with the unwraps kept partial: calls `from_b64D`
(debug assertion plus `char::from_u32` partiality) and propagates failure. -/
def decodeLoopChecked : List Nat → List Nat → Option (List Nat)
  | acc, [] => some acc
  | acc, c :: rest =>
    if 0x3800 ≤ c ∧ c < 0x4800 then
      (from_b64D ((c - 0x3800) &&& 0x3f)).bind (fun a =>
        (from_b64D ((c - 0x3800) >>> 6)).bind (fun b =>
          decodeLoopChecked (acc ++ [a, b]) rest))
    else if 0x4800 ≤ c ∧ c < 0x4840 then
      (from_b64D (c - 0x4800)).bind (fun a =>
        decodeLoopChecked (acc ++ [a]) rest)
    else
      decodeLoopChecked (acc ++ [c]) rest

/-- `decode` with the unwraps kept partial. -/
def decodeChecked (name : List Nat) : Option (List Nat × Bool) :=
  match name with
  | [] => some ([], false)
  | c :: rest =>
    if c = TABLE_MARKER then
      (decodeLoopChecked [] rest).map (fun out => (out, true))
    else
      (decodeLoopChecked [] (c :: rest)).map (fun out => (out, false))

/-- Encoding direction of spec section 4.1: consecutive symbol pairs are
packed into first-range codepoints low 6 bits first, a trailing lone symbol
into a second-range codepoint. -/
def encodeSymbols : List Nat → List Nat
  | s1 :: s2 :: rest => (0x3800 + (s1 + 64 * s2)) :: encodeSymbols rest
  | [s] => [0x4800 + s]
  | [] => []

/-- A raw name built in the encoding direction: optional single leading
table marker followed by the packed symbols. -/
def encodeName (isTable : Bool) (syms : List Nat) : List Nat :=
  (if isTable then [TABLE_MARKER] else []) ++ encodeSymbols syms

/-- The inner transform of source `split`: `path.splitn(2, ':')` yields the
part before the first colon, and the remainder after it when a colon exists. -/
def splitnTwo : List Char → List Char × Option (List Char)
  | [] => ([], none)
  | c :: rest =>
    if c = ':' then ([], some rest)
    else
      let r := splitnTwo rest
      (c :: r.1, r.2)

/-- Source `split`: `pieces.next()` on a `splitn` iterator always yields a
first piece (the source's final `else` arm is unreachable); a missing second
piece becomes the empty path (`PathBuf::new()`). -/
def split (path : List Char) : List Char × List Char :=
  let p := splitnTwo path
  (p.1, p.2.getD [])

/-- The `length` string of source `list_entry` (long mode): thresholds are
decimal, divisors binary, and the byte case carries a trailing space. -/
def sizeString (len : Nat) : String :=
  if 10000000000 ≤ len then toString (len / (1 <<< 30)) ++ " GB"
  else if 100000000 ≤ len then toString (len / (1 <<< 20)) ++ " MB"
  else if 1000000 ≤ len then toString (len / (1 <<< 10)) ++ " kB"
  else toString len ++ " B "

/-- A directory entry of the container tree as the collaborator exposes it:
a raw on-disk name plus either a stream's bytes or a storage's children.
The root storage is represented as the bare list of its children. -/
inductive Entry where
  | stream (name : List Nat) (content : List Nat)
  | storage (name : List Nat) (children : List Entry)

/-- `entry.name()`: the raw on-disk name. -/
def Entry.name : Entry → List Nat
  | .stream n _ => n
  | .storage n _ => n

/-- `entry.is_storage()`. -/
def Entry.isStorage : Entry → Bool
  | .stream _ _ => false
  | .storage _ _ => true

/-- First child with the given raw name among a list of sibling entries. -/
def findChild (entries : List Entry) (n : List Nat) : Option Entry :=
  entries.find? (fun e => e.name == n)

/-- Modelled from the spec: the collaborator (the CFB library, whose sources
are outside this example file) resolves a container path relative to the
root storage ("Container Path: a slash-delimited path inside the container
identifying a storage or stream, relative to the root storage").  Paths are
given as component lists; CFB entry names cannot contain the separator, so
every name the tool passes is a single component. -/
def resolveIn : List Entry → List (List Nat) → Option Entry
  | _, [] => none
  | entries, [n] => findChild entries n
  | entries, n :: rest =>
    match findChild entries n with
    | some (Entry.storage _ children) => resolveIn children rest
    | _ => none

/-- Modelled from the spec: `comp.read_storage(path)` — list the immediate
children of the storage at `path`, resolved from the root storage. -/
def readStorage (comp : List Entry) (path : List (List Nat)) : Option (List Entry) :=
  match resolveIn comp path with
  | some (Entry.storage _ children) => some children
  | _ => none

/-- Modelled from the spec: `comp.open_stream(path)` — the byte content of
the stream at `path`, resolved from the root storage. -/
def openStream (comp : List Entry) (path : List (List Nat)) : Option (List Nat) :=
  match resolveIn comp path with
  | some (Entry.stream _ content) => some content
  | _ => none

/-- The filesystem the extractor writes into: a set of existing directory
paths and of files (path with byte content).  Paths are component lists;
the empty path is the current working directory. -/
structure Fs where
  dirs : List (List (List Nat))
  files : List (List (List Nat) × List Nat)

/-- The given path exists in the filesystem, as a directory or as a file. -/
def pathMem (fs : Fs) (p : List (List Nat)) : Prop :=
  p ∈ fs.dirs ∨ p ∈ fs.files.map Prod.fst

instance (fs : Fs) (p : List (List Nat)) : Decidable (pathMem fs p) := by
  unfold pathMem; infer_instance

/-- `fs::create_dir`: fails if the target already exists (no overwrite) or
its parent directory is missing; otherwise records the new directory. -/
def mkdir (fs : Fs) (p : List (List Nat)) : Option Fs :=
  if pathMem fs p then none
  else if p.dropLast ∈ fs.dirs then some ⟨p :: fs.dirs, fs.files⟩
  else none

/-- `File::options().create_new(true).open(..)` followed by `io::copy`:
fails if the target already exists (`create_new` fails closed) or the parent
directory is missing; otherwise writes the stream bytes verbatim. -/
def createNewFile (fs : Fs) (p : List (List Nat)) (content : List Nat) : Option Fs :=
  if pathMem fs p then none
  else if p.dropLast ∈ fs.dirs then some ⟨fs.dirs, (p, content) :: fs.files⟩
  else none

/-- `".dump"` as codepoints, the suffix `format!("{}.dump", name)` appends. -/
def dumpSuffix : List Nat := [0x2E, 0x64, 0x75, 0x6D, 0x70]

/-- `"root"` as codepoints: the destination directory of `dump --all`. -/
def rootName : List Nat := [0x72, 0x6F, 0x6F, 0x74]

/-- Source `dump_entry_recursively`, fuel-indexed (the source recursion can
diverge on adversarial containers, so a fuel bound counts call steps;
exhausted fuel reports failure like an aborted run).  `Sum.inl e` is a call
on entry `e`; `Sum.inr es` is the `for subentry in entries` loop over the
children fetched for a root/storage entry.  Every `.unwrap()`/`.expect(..)`
panic aborts the run, returning the filesystem as mutated so far with the
success flag `false`.  As in the source, a storage's children are re-fetched
via `read_storage(entry.name())` and a stream is re-opened via
`open_stream(entry.name())`, both resolved from the root storage. -/
def dumpGo (comp : List Entry) :
    Nat → Entry ⊕ List Entry → List (List Nat) → Fs → Fs × Bool
  | 0, _, _, fs => (fs, false)
  | fuel + 1, Sum.inl (Entry.storage n _), out, fs =>
    match readStorage comp [n] with
    | none => (fs, false)
    | some entries => dumpGo comp fuel (Sum.inr entries) out fs
  | _ + 1, Sum.inl (Entry.stream n _), out, fs =>
    match openStream comp [n] with
    | none => (fs, false)
    | some content =>
      match createNewFile fs (out ++ [(decode n).1 ++ dumpSuffix]) content with
      | none => (fs, false)
      | some fs1 => (fs1, true)
  | _ + 1, Sum.inr [], _, fs => (fs, true)
  | fuel + 1, Sum.inr (e :: rest), out, fs =>
    match mkdir fs (out ++ [(decode e.name).1]) with
    | none => (fs, false)
    | some fs1 =>
      match dumpGo comp fuel (Sum.inl e) (out ++ [(decode e.name).1]) fs1 with
      | (fs2, true) => dumpGo comp fuel (Sum.inr rest) out fs2
      | (fs2, false) => (fs2, false)

/-- The `dump --all` branch of `main`: create the fresh `root` directory in
the working directory (failing closed), then run `dump_entry_recursively`
on the root entry — whose root branch iterates over `read_root_storage()`,
i.e. over the container's root children `comp`. -/
def dumpAll (fuel : Nat) (comp : List Entry) (fs : Fs) : Fs × Bool :=
  match mkdir fs [rootName] with
  | none => (fs, false)
  | some fs1 => dumpGo comp fuel (Sum.inr comp) [rootName] fs1

/-- The storage branch of the interactive explorer (`dump` without
`--all`): `entries.get(selected_index)` and, when the selection is a
storage, the frame is replaced by
`comp.read_storage(selection.name()).collect()`; an out-of-range index or
failed `read_storage` panics (`none`). -/
def selectStorage (comp frame : List Entry) (i : Nat) : Option (List Entry) :=
  match frame[i]? with
  | some (Entry.storage n _) => readStorage comp [n]
  | _ => none

/-- `entry.children`: a storage's immediate children as stored in the tree
(what the spec says the explorer frame should become on descent). -/
def Entry.children : Entry → List Entry
  | .stream _ _ => []
  | .storage _ ch => ch

/-- A concrete container: root holds storage `"A"` (0x41) whose only child
is stream `"B"` (0x42) with bytes `[1, 2, 3]`. -/
def c1Comp : List Entry :=
  [Entry.storage [0x41] [Entry.stream [0x42] [1, 2, 3]]]

/-- A working directory that is initially empty (the empty path is the
current directory itself). -/
def fsInit : Fs := ⟨[[]], []⟩

/-- Stream `"C"` (0x43) with byte `[7]`. -/
def c4C : Entry := Entry.stream [0x43] [7]

/-- Storage `"B"` (0x42) holding only `c4C`; it sits two levels below the
root in `c4Comp`. -/
def c4B : Entry := Entry.storage [0x42] [c4C]

/-- A concrete container: root holds storage `"A"` (0x41) whose only child
is the storage `c4B`. -/
def c4Comp : List Entry := [Entry.storage [0x41] [c4B]]

/-! ## Helper lemmas about the name codec -/

theorem land63_eq_mod (v : Nat) : v &&& 0x3f = v % 64 := by
  have h := Nat.and_pow_two_sub_one_eq_mod v 6
  norm_num at h
  exact h

theorem shiftRight6_eq_div (v : Nat) : v >>> 6 = v / 64 := by
  have h := Nat.shiftRight_eq_div_pow v 6
  norm_num at h
  exact h

theorem decodeLoop_append (l : List Nat) :
    ∀ acc : List Nat, decodeLoop acc l = acc ++ decodeLoop [] l := by
  induction l with
  | nil => intro acc; simp [decodeLoop]
  | cons c rest ih =>
    intro acc
    by_cases h1 : 0x3800 ≤ c ∧ c < 0x4800
    · simp only [decodeLoop, if_pos h1]
      rw [ih, ih ([] ++ _)]
      simp
    · by_cases h2 : 0x4800 ≤ c ∧ c < 0x4840
      · simp only [decodeLoop, if_neg h1, if_pos h2]
        rw [ih, ih ([] ++ _)]
        simp
      · simp only [decodeLoop, if_neg h1, if_neg h2]
        rw [ih, ih ([] ++ _)]
        simp

theorem decodeLoop_cons (c : Nat) (rest : List Nat) :
    decodeLoop [] (c :: rest) =
      (if 0x3800 ≤ c ∧ c < 0x4800 then
        [from_b64 ((c - 0x3800) &&& 0x3f), from_b64 ((c - 0x3800) >>> 6)]
      else if 0x4800 ≤ c ∧ c < 0x4840 then
        [from_b64 (c - 0x4800)]
      else [c]) ++ decodeLoop [] rest := by
  by_cases h1 : 0x3800 ≤ c ∧ c < 0x4800
  · simp only [decodeLoop, if_pos h1]
    rw [decodeLoop_append]
    simp
  · by_cases h2 : 0x4800 ≤ c ∧ c < 0x4840
    · simp only [decodeLoop, if_neg h1, if_pos h2]
      rw [decodeLoop_append]
      simp
    · simp only [decodeLoop, if_neg h1, if_neg h2]
      rw [decodeLoop_append]
      simp

theorem decode_cons_marker (rest : List Nat) :
    decode (TABLE_MARKER :: rest) = (decodeLoop [] rest, true) := by
  simp [decode]

theorem decode_cons_ne (c : Nat) (rest : List Nat) (h : c ≠ TABLE_MARKER) :
    decode (c :: rest) = (decodeLoop [] (c :: rest), false) := by
  simp [decode, h]

/-- C2: each codepoint after the optional leading table marker is decoded
independently, left to right: a first-range codepoint emits the two symbols
`from_b64((c - 0x3800) &&& 0x3f)` then `from_b64((c - 0x3800) >>> 6)` (low
6 bits first), a second-range codepoint emits the single symbol
`from_b64(c - 0x4800)`, and any other codepoint passes through verbatim;
the decode loop is a single pass with no dependency on name length parity. -/
theorem decode_char_cases_c2 :
    (∀ c rest, decodeLoop [] (c :: rest) =
      (if 0x3800 ≤ c ∧ c < 0x4800 then
        [from_b64 ((c - 0x3800) &&& 0x3f), from_b64 ((c - 0x3800) >>> 6)]
      else if 0x4800 ≤ c ∧ c < 0x4840 then
        [from_b64 (c - 0x4800)]
      else [c]) ++ decodeLoop [] rest) ∧
    (∀ rest, decode (TABLE_MARKER :: rest) = (decodeLoop [] rest, true)) ∧
    (∀ c rest, c ≠ TABLE_MARKER →
      decode (c :: rest) = (decodeLoop [] (c :: rest), false)) :=
  ⟨decodeLoop_cons, decode_cons_marker, decode_cons_ne⟩

/-- Witness for C2 at a concrete input: decoding the non-marker name
`[0x3800 + 5 + 64*40, 0x41]` emits the packed pair then the literal. -/
theorem decode_char_cases_c2_witness :
    decode [0x3800 + 5 + 64 * 40, 0x41] = ([0x35, 0x65, 0x41], false) := by
  have h := decode_char_cases_c2.2.2 (0x3800 + 5 + 64 * 40) [0x41] (by decide)
  exact h.trans (by decide)

/-- C5: a name with no codepoint in either private-use range and no table
marker decodes to itself with `is_table = false`. -/
theorem decode_plain_c5 (name : List Nat)
    (h : ∀ c ∈ name, ¬(0x3800 ≤ c ∧ c < 0x4800) ∧ ¬(0x4800 ≤ c ∧ c < 0x4840) ∧
      c ≠ TABLE_MARKER) :
    decode name = (name, false) := by
  have loop : ∀ l : List Nat,
      (∀ c ∈ l, ¬(0x3800 ≤ c ∧ c < 0x4800) ∧ ¬(0x4800 ≤ c ∧ c < 0x4840)) →
      decodeLoop [] l = l := by
    intro l
    induction l with
    | nil => intro _; rfl
    | cons c rest ih =>
      intro hl
      have hc := hl c (List.mem_cons_self c rest)
      rw [decodeLoop_cons, if_neg hc.1, if_neg hc.2]
      rw [ih (fun x hx => hl x (List.mem_cons_of_mem c hx))]
      rfl
  match name with
  | [] => rfl
  | c :: rest =>
    have hc := h c (List.mem_cons_self c rest)
    rw [decode_cons_ne c rest hc.2.2]
    rw [loop (c :: rest) (fun x hx => ⟨(h x hx).1, (h x hx).2.1⟩)]

/-- Witness for C5 at a concrete input: `"A_"` decodes to itself. -/
theorem decode_plain_c5_witness : decode [0x41, 0x5F] = ([0x41, 0x5F], false) :=
  decode_plain_c5 [0x41, 0x5F] (by decide)

/-- C7: `from_b64` maps 0–9 to ASCII digits, 10–35 to uppercase letters,
36–61 to lowercase letters, 62 to `.` and 63 to `_`, and is injective on
0..63, hence a bijection onto the 64-character alphabet. -/
theorem from_b64_bijection_c7 :
    (∀ v < 10, from_b64 v = 0x30 + v) ∧
    (∀ v < 36, 10 ≤ v → from_b64 v = 0x41 + (v - 10)) ∧
    (∀ v < 62, 36 ≤ v → from_b64 v = 0x61 + (v - 36)) ∧
    from_b64 62 = 0x2E ∧
    from_b64 63 = 0x5F ∧
    (∀ v1 < 64, ∀ v2 < 64, from_b64 v1 = from_b64 v2 → v1 = v2) := by
  decide

/-- Witness for C7 at a concrete input: `from_b64 7 = '7'`. -/
theorem from_b64_bijection_c7_witness : from_b64 7 = 0x37 := by
  have h := from_b64_bijection_c7.1 7 (by decide)
  simpa using h

theorem decodeLoop_encodeSymbols :
    ∀ syms : List Nat, (∀ s ∈ syms, s < 64) →
      decodeLoop [] (encodeSymbols syms) = syms.map from_b64 := by
  intro syms
  induction syms using encodeSymbols.induct with
  | case1 s1 s2 rest ih =>
    intro h
    have hs1 : s1 < 64 := h s1 (by simp)
    have hs2 : s2 < 64 := h s2 (by simp)
    have hc : 0x3800 ≤ 0x3800 + (s1 + 64 * s2) ∧ 0x3800 + (s1 + 64 * s2) < 0x4800 := by
      omega
    rw [encodeSymbols, decodeLoop_cons, if_pos hc]
    rw [land63_eq_mod, shiftRight6_eq_div]
    have e1 : (0x3800 + (s1 + 64 * s2) - 0x3800) % 64 = s1 := by omega
    have e2 : (0x3800 + (s1 + 64 * s2) - 0x3800) / 64 = s2 := by omega
    rw [e1, e2, ih (fun s hs => h s (by simp [hs]))]
    rfl
  | case2 s =>
    intro h
    have hs : s < 64 := h s (by simp)
    have hc2 : 0x4800 ≤ 0x4800 + s ∧ 0x4800 + s < 0x4840 := by omega
    rw [encodeSymbols, decodeLoop_cons, if_neg (by omega), if_pos hc2]
    have e : 0x4800 + s - 0x4800 = s := by omega
    rw [e]
    rfl
  | case3 =>
    intro _
    rfl

theorem encodeSymbols_head_ne_marker (syms : List Nat)
    (h : ∀ s ∈ syms, s < 64) :
    ∀ c rest, encodeSymbols syms = c :: rest → c ≠ TABLE_MARKER := by
  match syms with
  | [] => intro c rest hc; cases hc
  | [s] =>
    intro c rest hc
    have hs : s < 64 := h s (by simp)
    rw [encodeSymbols] at hc
    cases hc
    unfold TABLE_MARKER
    omega
  | s1 :: s2 :: tl =>
    intro c rest hc
    have hs1 : s1 < 64 := h s1 (by simp)
    have hs2 : s2 < 64 := h s2 (by simp)
    rw [encodeSymbols] at hc
    cases hc
    unfold TABLE_MARKER
    omega

/-- C3: a raw name built in the encoding direction (symbol pairs packed into
first-range codepoints low 6 bits first, a lone trailing symbol into a
second-range codepoint, optionally preceded by one table marker) decodes to
exactly the original symbol sequence rendered through `from_b64`, and the
returned flag equals the marker's presence. -/
theorem decode_encode_roundtrip_c3 (t : Bool) (syms : List Nat)
    (h : ∀ s ∈ syms, s < 64) :
    decode (encodeName t syms) = (syms.map from_b64, t) := by
  cases t with
  | true =>
    have : encodeName true syms = TABLE_MARKER :: encodeSymbols syms := by
      simp [encodeName]
    rw [this, decode_cons_marker, decodeLoop_encodeSymbols syms h]
  | false =>
    have he : encodeName false syms = encodeSymbols syms := by simp [encodeName]
    rw [he]
    match hs : encodeSymbols syms with
    | [] =>
      have : syms = [] := by
        match syms with
        | [] => rfl
        | [s] => rw [encodeSymbols] at hs; cases hs
        | s1 :: s2 :: tl => rw [encodeSymbols] at hs; cases hs
      subst this
      rfl
    | c :: rest =>
      have hne := encodeSymbols_head_ne_marker syms h c rest hs
      rw [decode_cons_ne c rest hne, ← hs, decodeLoop_encodeSymbols syms h]

/-- Witness for C3 at a concrete input: symbols `[5, 40, 63]` with the
marker present round-trip to `"5e_"` with `is_table = true`. -/
theorem decode_encode_roundtrip_c3_witness :
    decode (encodeName true [5, 40, 63]) = ([0x35, 0x65, 0x5F], true) := by
  have h := decode_encode_roundtrip_c3 true [5, 40, 63] (by decide)
  exact h.trans (by decide)

/-! ## Totality of decode (C10) -/

theorem from_b64D_eq (v : Nat) (h : v < 64) : from_b64D v = some (from_b64 v) := by
  unfold from_b64D from_b64 char_from_u32
  split_ifs <;> first | rfl | omega

theorem decodeLoopChecked_eq :
    ∀ l acc : List Nat, decodeLoopChecked acc l = some (decodeLoop acc l) := by
  intro l
  induction l with
  | nil => intro acc; rfl
  | cons c rest ih =>
    intro acc
    by_cases h1 : 0x3800 ≤ c ∧ c < 0x4800
    · rw [decodeLoopChecked, decodeLoop, if_pos h1, if_pos h1]
      rw [from_b64D_eq _ (by rw [land63_eq_mod]; omega),
          from_b64D_eq _ (by rw [shiftRight6_eq_div]; omega)]
      exact ih _
    · by_cases h2 : 0x4800 ≤ c ∧ c < 0x4840
      · rw [decodeLoopChecked, decodeLoop, if_neg h1, if_neg h1, if_pos h2, if_pos h2]
        rw [from_b64D_eq _ (by omega)]
        exact ih _
      · rw [decodeLoopChecked, decodeLoop, if_neg h1, if_neg h1, if_neg h2, if_neg h2]
        exact ih _

/-- C10: every value `decode` passes to `from_b64` is below 64, so the debug
assertion and every `char::from_u32(..).unwrap()` inside succeed: the
checked decoder (which propagates those failures) agrees with the total one
on every input, and `from_b64` with its checks agrees with the total version
on all arguments below 64. -/
theorem decode_total_c10 :
    (∀ name : List Nat, decodeChecked name = some (decode name)) ∧
    (∀ v : Nat, v < 64 → from_b64D v = some (from_b64 v)) := by
  refine ⟨?_, from_b64D_eq⟩
  intro name
  match name with
  | [] => rfl
  | c :: rest =>
    by_cases hm : c = TABLE_MARKER
    · simp only [decodeChecked, decode, if_pos hm, decodeLoopChecked_eq]
      rfl
    · simp only [decodeChecked, decode, if_neg hm, decodeLoopChecked_eq]
      rfl

/-- Witness for C10 at a concrete input: the checked `from_b64` succeeds on
63 and the checked decoder succeeds on a packed name. -/
theorem decode_total_c10_witness : from_b64D 63 = some 0x5F := by
  have h := decode_total_c10.2 63 (by decide)
  exact h.trans (by decide)

/-! ## Entry formatter (C8) and address resolver (C9) -/

/-- C8: the long-format size string uses the decimal thresholds
10^10 / 10^8 / 10^6 with the binary divisors 2^30 / 2^20 / 2^10 and the
suffixes " GB" / " MB" / " kB" / " B " (trailing space in the byte case),
with the boundary values the spec lists. -/
theorem sizeString_spec_c8 :
    (∀ len : Nat, 10000000000 ≤ len →
      sizeString len = toString (len / 2 ^ 30) ++ " GB") ∧
    (∀ len : Nat, 100000000 ≤ len → len < 10000000000 →
      sizeString len = toString (len / 2 ^ 20) ++ " MB") ∧
    (∀ len : Nat, 1000000 ≤ len → len < 100000000 →
      sizeString len = toString (len / 2 ^ 10) ++ " kB") ∧
    (∀ len : Nat, len < 1000000 →
      sizeString len = toString len ++ " B ") ∧
    sizeString 9999 = "9999 B " ∧
    sizeString 1000000 = "976 kB" ∧
    sizeString 100000000 = "95 MB" ∧
    sizeString 10000000000 = "9 GB" := by
  refine ⟨?_, ?_, ?_, ?_, by decide, by decide, by decide, by decide⟩
  · intro len h
    unfold sizeString
    rw [if_pos h, Nat.one_shiftLeft]
  · intro len h1 h2
    unfold sizeString
    rw [if_neg (by omega), if_pos h1, Nat.one_shiftLeft]
  · intro len h1 h2
    unfold sizeString
    rw [if_neg (by omega), if_neg (by omega), if_pos h1, Nat.one_shiftLeft]
  · intro len h
    unfold sizeString
    rw [if_neg (by omega), if_neg (by omega), if_neg (by omega)]

/-- Witness for C8 at a concrete input: 20 GB of bytes format as "18 GB"
(binary divisor). -/
theorem sizeString_spec_c8_witness : sizeString 20000000000 = "18 GB" := by
  have h := sizeString_spec_c8.1 20000000000 (by norm_num)
  exact h.trans (by decide)

theorem splitnTwo_no_colon (s : List Char) (h : ':' ∉ s) :
    splitnTwo s = (s, none) := by
  induction s with
  | nil => rfl
  | cons c rest ih =>
    have hc : ¬c = ':' := fun hc => h (hc ▸ List.mem_cons_self c rest)
    rw [splitnTwo, if_neg hc, ih (fun hm => h (List.mem_cons_of_mem c hm))]

theorem splitnTwo_first_colon (a b : List Char) (h : ':' ∉ a) :
    splitnTwo (a ++ ':' :: b) = (a, some b) := by
  induction a with
  | nil => simp [splitnTwo]
  | cons c rest ih =>
    have hc : ¬c = ':' := fun hc => h (hc ▸ List.mem_cons_self c rest)
    rw [List.cons_append, splitnTwo, if_neg hc,
        ih (fun hm => h (List.mem_cons_of_mem c hm))]

/-- C9: `split` cuts the input at its first colon, returning the part before
it as the container locator and everything after it (later colons included)
as the in-container path; with no colon the whole input is the locator and
the path is empty, and the empty input yields two empty parts. -/
theorem split_first_colon_c9 :
    (∀ a b : List Char, ':' ∉ a → split (a ++ ':' :: b) = (a, b)) ∧
    (∀ s : List Char, ':' ∉ s → split s = (s, [])) ∧
    split [] = ([], []) := by
  refine ⟨?_, ?_, rfl⟩
  · intro a b h
    unfold split
    rw [splitnTwo_first_colon a b h]
    rfl
  · intro s h
    unfold split
    rw [splitnTwo_no_colon s h]
    rfl

/-- Witness for C9 at a concrete input: `"ab:c:d"` splits at the first
colon only. -/
theorem split_first_colon_c9_witness :
    split ['a', 'b', ':', 'c', ':', 'd'] = (['a', 'b'], ['c', ':', 'd']) := by
  have h := split_first_colon_c9.1 ['a', 'b'] ['c', ':', 'd'] (by decide)
  exact h

/-! ## Extraction engine: fail-closed behavior (C6) and dump layout (C1) -/

theorem mkdir_pathMem {fs fs' : Fs} {q p : List (List Nat)}
    (h : mkdir fs q = some fs') (hp : pathMem fs p) : pathMem fs' p := by
  unfold mkdir at h
  split_ifs at h
  cases h
  unfold pathMem at hp ⊢
  rcases hp with h1 | h2
  · exact Or.inl (List.mem_cons_of_mem _ h1)
  · exact Or.inr h2

theorem createNewFile_pathMem {fs fs' : Fs} {q p : List (List Nat)}
    {content : List Nat}
    (h : createNewFile fs q content = some fs') (hp : pathMem fs p) :
    pathMem fs' p := by
  unfold createNewFile at h
  split_ifs at h
  cases h
  unfold pathMem at hp ⊢
  rcases hp with h1 | h2
  · exact Or.inl h1
  · simp only [List.map_cons]
    exact Or.inr (List.mem_cons_of_mem _ h2)

theorem mkdir_self_mem {fs fs' : Fs} {q : List (List Nat)}
    (h : mkdir fs q = some fs') : pathMem fs' q := by
  unfold mkdir at h
  split_ifs at h
  cases h
  exact Or.inl (List.mem_cons_self _ _)

theorem dumpGo_pathMem (comp : List Entry) (p : List (List Nat)) :
    ∀ (fuel : Nat) (t : Entry ⊕ List Entry) (out : List (List Nat)) (fs : Fs),
      pathMem fs p → pathMem (dumpGo comp fuel t out fs).1 p := by
  intro fuel
  induction fuel with
  | zero =>
    intro t out fs hp
    exact hp
  | succ n ih =>
    intro t out fs hp
    rcases t with e | es
    · cases e with
      | stream nm ct =>
        rw [dumpGo]
        cases ho : openStream comp [nm] with
        | none => exact hp
        | some content =>
          show pathMem
            (match createNewFile fs (out ++ [(decode nm).1 ++ dumpSuffix]) content with
              | none => (fs, false)
              | some fs1 => (fs1, true)).1 p
          cases hc : createNewFile fs (out ++ [(decode nm).1 ++ dumpSuffix]) content with
          | none => exact hp
          | some fs1 => exact createNewFile_pathMem hc hp
      | storage nm ch =>
        rw [dumpGo]
        cases hr : readStorage comp [nm] with
        | none => exact hp
        | some entries => exact ih _ _ _ hp
    · cases es with
      | nil =>
        rw [dumpGo]
        exact hp
      | cons e rest =>
        rw [dumpGo]
        cases hm : mkdir fs (out ++ [(decode e.name).1]) with
        | none => exact hp
        | some fs1 =>
          have hp1 := mkdir_pathMem hm hp
          show pathMem
            (match dumpGo comp n (Sum.inl e) (out ++ [(decode e.name).1]) fs1 with
              | (fs2, true) => dumpGo comp n (Sum.inr rest) out fs2
              | (fs2, false) => (fs2, false)).1 p
          cases hd : dumpGo comp n (Sum.inl e) (out ++ [(decode e.name).1]) fs1 with
          | mk fs2 b =>
            have hp2 : pathMem fs2 p := by
              have hg := ih (Sum.inl e) (out ++ [(decode e.name).1]) fs1 hp1
              rw [hd] at hg
              exact hg
            cases b with
            | false => exact hp2
            | true => exact ih _ _ _ hp2

theorem dumpAll_pathMem_fail (fuel : Nat) (comp : List Entry) (fs : Fs)
    (h : pathMem fs [rootName]) : dumpAll fuel comp fs = (fs, false) := by
  unfold dumpAll mkdir
  rw [if_pos h]

/-- C6: when the `root` destination already exists in the working directory,
`dump --all` fails immediately and returns the filesystem untouched;
consequently a second run after any successful run fails and leaves the
first run's output exactly as it was. -/
theorem dump_fail_closed_c6 :
    (∀ (fuel : Nat) (comp : List Entry) (fs : Fs),
      pathMem fs [rootName] → dumpAll fuel comp fs = (fs, false)) ∧
    (∀ (fuel1 fuel2 : Nat) (comp1 comp2 : List Entry) (fs fs1 : Fs),
      dumpAll fuel1 comp1 fs = (fs1, true) →
      dumpAll fuel2 comp2 fs1 = (fs1, false)) := by
  refine ⟨dumpAll_pathMem_fail, ?_⟩
  intro fuel1 fuel2 comp1 comp2 fs fs1 h
  unfold dumpAll at h
  cases hm : mkdir fs [rootName] with
  | none =>
    rw [hm] at h
    have h2 : (fs, false) = (fs1, true) := h
    simp at h2
  | some fs2 =>
    rw [hm] at h
    have h2 : dumpGo comp1 fuel1 (Sum.inr comp1) [rootName] fs2 = (fs1, true) := h
    have hroot : pathMem fs2 [rootName] := mkdir_self_mem hm
    have hmono := dumpGo_pathMem comp1 [rootName] fuel1 (Sum.inr comp1) [rootName] fs2 hroot
    rw [h2] at hmono
    exact dumpAll_pathMem_fail fuel2 comp2 fs1 hmono

/-- Witness for C6 at a concrete input: dumping the empty container into an
empty working directory succeeds, and running the dump again on the
resulting filesystem fails and leaves it unchanged. -/
theorem dump_fail_closed_c6_witness :
    dumpAll 2 [] ⟨[[rootName], []], []⟩ = (⟨[[rootName], []], []⟩, false) :=
  dump_fail_closed_c6.2 1 2 [] [] ⟨[[]], []⟩ ⟨[[rootName], []], []⟩ rfl

/-- C1 fails on the code: dumping the container whose root storage `"A"`
holds stream `"B"` with bytes `[1, 2, 3]` creates the directories `root/`,
`root/A/` and — although `B` is a stream, not a storage — `root/A/B/`, then
aborts when `open_stream("B")` resolves the bare name against the root
storage (which has no child `B`); the run writes no file at all, so no
`root/A/B.dump` with `B`'s bytes exists. -/
theorem dumpAll_nested_stream_c1 :
    dumpAll 9 c1Comp fsInit =
      (⟨[[rootName, [0x41], [0x42]], [rootName, [0x41]], [rootName], []], []⟩,
       false) ∧
    (dumpAll 9 c1Comp fsInit).1.files = [] ∧
    [rootName, [0x41], [0x42]] ∈ (dumpAll 9 c1Comp fsInit).1.dirs := by
  refine ⟨rfl, rfl, ?_⟩
  show [rootName, [0x41], [0x42]] ∈
    [[rootName, [0x41], [0x42]], [rootName, [0x41]], [rootName], []]
  exact List.mem_cons_self _ _

/-- C4 fails on the code: in the container `c4Comp` (root → storage `"A"` →
storage `"B"` → stream `"C"`), descending into `"A"` works (its name
resolves from the root), but then selecting the storage `"B"` — whose
children are `[c4C]` — makes `read_storage("B")` resolve `"B"` against the
root storage and fail, so the frame is not replaced by `B`'s children. -/
theorem selectStorage_nested_c4 :
    readStorage c4Comp [[0x41]] = some [c4B] ∧
    c4B.children = [c4C] ∧
    selectStorage c4Comp [c4B] 0 = none :=
  ⟨rfl, rfl, rfl⟩
